import Mathlib

/-!
Shallow embedding of the dense linear-algebra kernel layer of ngsolve
(src/basiclinalg/ngblas.hpp and src/basiclinalg/eigensystem.hpp).

Matrices and vectors over exact rationals model the double-precision
views of the source: a `Vec` is a FlatVector (a length together with the
underlying buffer contents), a `Mat` is a SliceMatrix (height, width,
buffer contents).  Dispatch wrappers, early returns and index clamping
are translated from the header; the bodies of the table slots and of the
extern kernels are not part of the sources and are modelled from the
spec, each such definition carrying a doc comment saying so.
-/

namespace ngbla

/-- A FlatVector view: a length and the contents of the underlying buffer.
Entries at indices `≥ size` model the memory behind the view. -/
structure Vec where
  size : Nat
  data : Nat → ℚ

/-- A SliceMatrix view: height, width, and the contents of the buffer. -/
structure Mat where
  height : Nat
  width : Nat
  data : Nat → Nat → ℚ

/-- The `Trans(a)` view of a matrix: height and width swapped, entries mirrored. -/
def Mat.transpose (a : Mat) : Mat :=
  ⟨a.width, a.height, fun i j => a.data j i⟩

/-! ## Vector primitives (ngblas.hpp lines 17-50) -/

/-- `CopyVector (src, dest)`: `for (size_t i : Range(dest)) dest[i] = src[i];`. -/
def CopyVector (src dest : Vec) : Vec :=
  ⟨dest.size, fun i => if i < dest.size then src.data i else dest.data i⟩

/-- `AddVector (alpha, src, dest)`: `for (size_t i : Range(dest)) dest[i] += alpha*src[i];`. -/
def AddVector (alpha : ℚ) (src dest : Vec) : Vec :=
  ⟨dest.size, fun i => if i < dest.size then dest.data i + alpha * src.data i else dest.data i⟩

/-! ## Dispatch tables: sizes and index computations (ngblas.hpp) -/

/-- `std::size(dispatch_matvec)`, declared `pmult_matvec dispatch_matvec[26]`. -/
def dispatch_matvec_size : Nat := 26

/-- `std::size(dispatch_addmatvec)`, declared `pmultadd_matvec dispatch_addmatvec[25]`. -/
def dispatch_addmatvec_size : Nat := 25

/-- `std::size(dispatch_mattransvec)`, declared `pmult_matvec dispatch_mattransvec[13]`. -/
def dispatch_mattransvec_size : Nat := 13

/-- `std::size(dispatch_addmattransvec)`, declared `pmultadd_matvec dispatch_addmattransvec[13]`. -/
def dispatch_addmattransvec_size : Nat := 13

/-- `std::size(dispatch_multAB)`, declared `pmultABW dispatch_multAB[14]`. -/
def dispatch_multAB_size : Nat := 14

/-- `std::size(dispatch_minusmultAB)`, declared `pmultABW dispatch_minusmultAB[14]`. -/
def dispatch_minusmultAB_size : Nat := 14

/-- `std::size(dispatch_addAB)`, declared `pmultABW dispatch_addAB[14]`. -/
def dispatch_addAB_size : Nat := 14

/-- `std::size(dispatch_subAB)`, declared `pmultABW dispatch_subAB[14]`. -/
def dispatch_subAB_size : Nat := 14

/-- `std::size(dispatch_atb<ADD,POS>::ptrs)`, declared `pmultABW ptrs[14]`. -/
def dispatch_atb_size : Nat := 14

/-- Index computed by `MultMatVec`: `min(x.Size(), std::size(dispatch_matvec)-1)`. -/
def multMatVec_idx (n : Nat) : Nat := min n (dispatch_matvec_size - 1)

/-- Index computed by `MultAddMatVec`: `min(x.Size(), std::size(dispatch_addmatvec)-1)`. -/
def multAddMatVec_idx (n : Nat) : Nat := min n (dispatch_addmatvec_size - 1)

/-- Index computed by `MultMatTransVec`: `min(x.Size(), std::size(dispatch_mattransvec)-1)`. -/
def multMatTransVec_idx (n : Nat) : Nat := min n (dispatch_mattransvec_size - 1)

/-- Index computed by `MultAddMatTransVec`: `min(x.Size(), std::size(dispatch_addmattransvec)-1)`. -/
def multAddMatTransVec_idx (n : Nat) : Nat := min n (dispatch_addmattransvec_size - 1)

/-- Index computed by `MultMatMat`: `min(a.Width(), std::size(dispatch_multAB)-1)`. -/
def multMatMat_idx (n : Nat) : Nat := min n (dispatch_multAB_size - 1)

/-- Index computed by `MinusMultAB`: `min(a.Width(), std::size(dispatch_minusmultAB)-1)`. -/
def minusMultAB_idx (n : Nat) : Nat := min n (dispatch_minusmultAB_size - 1)

/-- Index computed by `AddAB`: `min(a.Width(), std::size(dispatch_addAB)-1)`. -/
def addAB_idx (n : Nat) : Nat := min n (dispatch_addAB_size - 1)

/-- Index computed by `SubAB`: `min(a.Width(), std::size(dispatch_subAB)-1)`. -/
def subAB_idx (n : Nat) : Nat := min n (dispatch_subAB_size - 1)

/-- Index computed by `MatMat_AtB`: `min(a.Width(), std::size(dispatch_atb<ADD,POS>::ptrs)-1)`. -/
def matMat_AtB_idx (n : Nat) : Nat := min n (dispatch_atb_size - 1)

/-- Effective loop length run by table slot `s` of a table whose final index is
`last`, on data of true size `n`: slot `s < last` is the micro-kernel unrolled
for exactly size `s`, while the last slot is the size-agnostic general loop. -/
def slotLen (last s n : Nat) : Nat := if s = last then n else s

/-! ## GEMV family (ngblas.hpp lines 63-103) -/

/-- Modelled from the spec: the body of table slot `s` of `dispatch_matvec`
is not part of the sources (only the `extern` table is declared); per the
spec each slot is the micro-kernel for inner length `s` computing `y := A·x`
over exactly `s` columns, and the last slot is the general loop over the
true length. -/
def matvec_slot (last s : Nat) (a : Nat → Nat → ℚ) (x y : Vec) : Vec :=
  ⟨y.size, fun i =>
    if i < y.size then ∑ j ∈ Finset.range (slotLen last s x.size), a i j * x.data j
    else y.data i⟩

/-- Modelled from the spec: slot `s` of `dispatch_addmatvec`, computing
`y += scal·(A·x)` with the contraction unrolled for length `s` (general loop
in the last slot). The body is not part of the sources. -/
def addmatvec_slot (last s : Nat) (scal : ℚ) (a : Nat → Nat → ℚ) (x y : Vec) : Vec :=
  ⟨y.size, fun i =>
    if i < y.size then
      y.data i + scal * ∑ j ∈ Finset.range (slotLen last s x.size), a i j * x.data j
    else y.data i⟩

/-- Modelled from the spec: slot `s` of `dispatch_mattransvec`, computing
`y := Aᵗ·x` with the contraction unrolled for length `s` (general loop in the
last slot). The body is not part of the sources. -/
def mattransvec_slot (last s : Nat) (a : Nat → Nat → ℚ) (x y : Vec) : Vec :=
  ⟨y.size, fun i =>
    if i < y.size then ∑ j ∈ Finset.range (slotLen last s x.size), x.data j * a j i
    else y.data i⟩

/-- Modelled from the spec: slot `s` of `dispatch_addmattransvec`, computing
`y += scal·(Aᵗ·x)` with the contraction unrolled for length `s` (general loop
in the last slot). The body is not part of the sources. -/
def addmattransvec_slot (last s : Nat) (scal : ℚ) (a : Nat → Nat → ℚ) (x y : Vec) : Vec :=
  ⟨y.size, fun i =>
    if i < y.size then
      y.data i + scal * ∑ j ∈ Finset.range (slotLen last s x.size), x.data j * a j i
    else y.data i⟩

/-- `MultMatVec (a, x, y)` (ngblas.hpp lines 66-70): computes the table index
`min(x.Size(), std::size(dispatch_matvec)-1)` and invokes the stored routine. -/
def MultMatVec (a : Nat → Nat → ℚ) (x y : Vec) : Vec :=
  matvec_slot (dispatch_matvec_size - 1) (multMatVec_idx x.size) a x y

/-- `MultAddMatVec (s, a, x, y)` (ngblas.hpp lines 76-80). -/
def MultAddMatVec (scal : ℚ) (a : Nat → Nat → ℚ) (x y : Vec) : Vec :=
  addmatvec_slot (dispatch_addmatvec_size - 1) (multAddMatVec_idx x.size) scal a x y

/-- `MultMatTransVec (a, x, y)` (ngblas.hpp lines 85-89). -/
def MultMatTransVec (a : Nat → Nat → ℚ) (x y : Vec) : Vec :=
  mattransvec_slot (dispatch_mattransvec_size - 1) (multMatTransVec_idx x.size) a x y

/-- `MultAddMatTransVec (s, a, x, y)` (ngblas.hpp lines 93-97). -/
def MultAddMatTransVec (scal : ℚ) (a : Nat → Nat → ℚ) (x y : Vec) : Vec :=
  addmattransvec_slot (dispatch_addmattransvec_size - 1) (multAddMatTransVec_idx x.size) scal a x y

/-- Modelled from the spec: the generic reference implementation `y := A·x`
(the oracle of spec section 8; no generic matvec body appears in the sources). -/
def refMultMatVec (a : Nat → Nat → ℚ) (x y : Vec) : Vec :=
  ⟨y.size, fun i =>
    if i < y.size then ∑ j ∈ Finset.range x.size, a i j * x.data j else y.data i⟩

/-- Modelled from the spec: the generic reference `y += scal·(A·x)`. -/
def refMultAddMatVec (scal : ℚ) (a : Nat → Nat → ℚ) (x y : Vec) : Vec :=
  ⟨y.size, fun i =>
    if i < y.size then y.data i + scal * ∑ j ∈ Finset.range x.size, a i j * x.data j
    else y.data i⟩

/-- Modelled from the spec: the generic reference `y := Aᵗ·x`. -/
def refMultMatTransVec (a : Nat → Nat → ℚ) (x y : Vec) : Vec :=
  ⟨y.size, fun i =>
    if i < y.size then ∑ j ∈ Finset.range x.size, x.data j * a j i else y.data i⟩

/-- Modelled from the spec: the generic reference `y += scal·(Aᵗ·x)`. -/
def refMultAddMatTransVec (scal : ℚ) (a : Nat → Nat → ℚ) (x y : Vec) : Vec :=
  ⟨y.size, fun i =>
    if i < y.size then y.data i + scal * ∑ j ∈ Finset.range x.size, x.data j * a j i
    else y.data i⟩

/-! ## Indirect scatter variant (ngblas.hpp lines 108-121) -/

/-- The two ways a call can be routed: through a dispatch-table slot, or to
an explicit non-dispatched fallback routine. -/
inductive DispatchRoute where
  | table : Nat → DispatchRoute
  | intern : DispatchRoute
deriving DecidableEq

/-- The routing decision of `MultAddMatTransVecIndirect` (ngblas.hpp lines
116-120): `size_t sy = y.Size(); if (sy <= 24) dispatch_addmattransvecI[sy]
else MultAddMatTransVecIndirect_intern`. -/
def mamtviRoute (y : Vec) : DispatchRoute :=
  if y.size ≤ 24 then .table y.size else .intern

/-- The routing rule as the claim states it: keyed on the contracted vector
`x`, table slot `x.Size()` whenever `x.Size() ≤ 24`, fallback above. Stated
for comparison with `mamtviRoute`, which is what the source computes. -/
def mamtviRouteClaimed (x : Vec) : DispatchRoute :=
  if x.size ≤ 24 then .table x.size else .intern

/-- The contracted inner product `sum_j x[j]*A[j,i]` of column `i`. -/
def dotColumn (a : Nat → Nat → ℚ) (x : Vec) (i : Nat) : ℚ :=
  ∑ j ∈ Finset.range x.size, x.data j * a j i

/-- Sequential scatter loop: for each position `p` of `ind` (the `i`-th being
paired with column `i + start`), add `s * sum_j x[j]*A[j,i]` into the buffer
at index `p`. -/
def scatterAdd (s : ℚ) (a : Nat → Nat → ℚ) (x : Vec) :
    Nat → List Nat → (Nat → ℚ) → (Nat → ℚ)
  | _, [], y => y
  | i, p :: rest, y =>
      scatterAdd s a x (i + 1) rest (fun q => if q = p then y q + s * dotColumn a x i else y q)

/-- Modelled from the spec: the table slots `dispatch_addmattransvecI` are not
part of the sources; per the spec every routed call computes
`y[ind[i]] += s * sum_j x[j]*A[j,i]`. -/
def mamtviKernel (s : ℚ) (a : Nat → Nat → ℚ) (x y : Vec) (ind : List Nat) : Vec :=
  ⟨y.size, scatterAdd s a x 0 ind y.data⟩

/-- Modelled from the spec: `MultAddMatTransVecIndirect_intern`, the explicit
non-dispatched fallback, computing the same scatter update; its body is not
part of the sources. -/
def mamtviIntern (s : ℚ) (a : Nat → Nat → ℚ) (x y : Vec) (ind : List Nat) : Vec :=
  ⟨y.size, scatterAdd s a x 0 ind y.data⟩

/-- `MultAddMatTransVecIndirect (s, a, x, y, ind)` (ngblas.hpp lines 113-121):
routes through the table when `y.Size() <= 24`, otherwise calls the fallback. -/
def MultAddMatTransVecIndirect (s : ℚ) (a : Nat → Nat → ℚ) (x y : Vec) (ind : List Nat) : Vec :=
  if y.size ≤ 24 then mamtviKernel s a x y ind else mamtviIntern s a x y ind

/-! ## GEMM family (ngblas.hpp lines 128-242, 348-483) -/

/-- The four result policies of the GEMM family (ngblas.hpp lines 348-352):
`gemmVal ADD POS cv s` is the value written where `cv` was stored and `s` is
the computed product entry: overwrite `±s` or accumulate `cv ± s`. -/
def gemmVal (ADD POS : Bool) (cv s : ℚ) : ℚ :=
  match ADD, POS with
  | false, false => -s
  | false, true => s
  | true, false => cv - s
  | true, true => cv + s

/-- Modelled from the spec: the bodies of the slots of `dispatch_multAB`,
`dispatch_minusmultAB`, `dispatch_addAB` and `dispatch_subAB` are not part of
the sources; per the spec slot `s` computes the policy update of `C` with
`A·B` on the `a.Height() × b.Width()` block, contraction unrolled for length
`s`, the last slot being the size-agnostic general loop. -/
def gemmAB_slot (ADD POS : Bool) (last s : Nat) (a b c : Mat) : Mat :=
  ⟨c.height, c.width, fun i j =>
    if i < a.height ∧ j < b.width then
      gemmVal ADD POS (c.data i j)
        (∑ k ∈ Finset.range (slotLen last s a.width), a.data i k * b.data k j)
    else c.data i j⟩

/-- `MultMatMat (a, b, c)` (ngblas.hpp lines 139-144): early return when
`a.Height()==0 || b.Width()==0`, otherwise dispatch on the clamped `a.Width()`. -/
def MultMatMat (a b c : Mat) : Mat :=
  if a.height = 0 ∨ b.width = 0 then c
  else gemmAB_slot false true (dispatch_multAB_size - 1) (multMatMat_idx a.width) a b c

/-- `MinusMultAB (a, b, c)` (ngblas.hpp lines 147-157). -/
def MinusMultAB (a b c : Mat) : Mat :=
  if a.height = 0 ∨ b.width = 0 then c
  else gemmAB_slot false false (dispatch_minusmultAB_size - 1) (minusMultAB_idx a.width) a b c

/-- `AddAB (a, b, c)` (ngblas.hpp lines 160-168). -/
def AddAB (a b c : Mat) : Mat :=
  if a.height = 0 ∨ b.width = 0 then c
  else gemmAB_slot true true (dispatch_addAB_size - 1) (addAB_idx a.width) a b c

/-- `SubAB (a, b, c)` (ngblas.hpp lines 171-179). -/
def SubAB (a b c : Mat) : Mat :=
  if a.height = 0 ∨ b.width = 0 then c
  else gemmAB_slot true false (dispatch_subAB_size - 1) (subAB_idx a.width) a b c

/-- Modelled from the spec: slot `s` of `dispatch_atb<ADD,POS>::ptrs` (the
bodies are not part of the sources); the family computes the policy update of
`C` with `Aᵗ·B` — result block `a.Width() × b.Width()`, contraction over
`a.Height()` — with the result-row loop unrolled for `a.Width() = s`, the
last slot being the general loop. -/
def atb_slot (ADD POS : Bool) (last s : Nat) (a b c : Mat) : Mat :=
  ⟨c.height, c.width, fun i j =>
    if i < slotLen last s a.width ∧ j < b.width then
      gemmVal ADD POS (c.data i j)
        (∑ k ∈ Finset.range a.height, a.data k i * b.data k j)
    else c.data i j⟩

/-- `MatMat_AtB<ADD,POS> (a, b, c)` (ngblas.hpp lines 197-208): early return
when `a.Height()==0 || b.Width()==0`, otherwise dispatch on the clamped
`a.Width()`. -/
def MatMat_AtB (ADD POS : Bool) (a b c : Mat) : Mat :=
  if a.height = 0 ∨ b.width = 0 then c
  else atb_slot ADD POS (dispatch_atb_size - 1) (matMat_AtB_idx a.width) a b c

/-- Modelled from the spec: slot `s` of `dispatch_abt`/`dispatch_addabt` (the
bodies are not part of the sources); computes the policy update of `C` with
`A·Bᵗ` on the `a.Height() × b.Height()` block, contraction unrolled for
`a.Width() = s`. -/
def abt_slot (ADD POS : Bool) (s : Nat) (a b c : Mat) : Mat :=
  ⟨c.height, c.width, fun i j =>
    if i < a.height ∧ j < b.height then
      gemmVal ADD POS (c.data i j) (∑ k ∈ Finset.range s, a.data i k * b.data j k)
    else c.data i j⟩

/-- Modelled from the spec: `MultABt_intern`/`AddABt_intern` and the plain
extern `MinusMultABt`/`SubABt`, the non-dispatched `A·Bᵗ` routines handling
any width; their bodies are not part of the sources. -/
def abt_intern (ADD POS : Bool) (a b c : Mat) : Mat :=
  ⟨c.height, c.width, fun i j =>
    if i < a.height ∧ j < b.height then
      gemmVal ADD POS (c.data i j) (∑ k ∈ Finset.range a.width, a.data i k * b.data j k)
    else c.data i j⟩

/-- `MultABt (a, b, c)` (ngblas.hpp lines 226-233): `wa = a.Width(); if
(wa <= 24) dispatch_abt[wa] else MultABt_intern`. -/
def MultABt (a b c : Mat) : Mat :=
  if a.width ≤ 24 then abt_slot false true a.width a b c else abt_intern false true a b c

/-- `AddABt (a, b, c)` (ngblas.hpp lines 235-242). -/
def AddABt (a b c : Mat) : Mat :=
  if a.width ≤ 24 then abt_slot true true a.width a b c else abt_intern true true a b c

/-- `MinusMultABt (a, b, c)` (ngblas.hpp line 245, extern; body modelled from
the spec as the non-dispatched `C := -A·Bᵗ`). -/
def MinusMultABt (a b c : Mat) : Mat := abt_intern false false a b c

/-- `SubABt (a, b, c)` (ngblas.hpp line 246, extern; body modelled from the
spec as the non-dispatched `C -= A·Bᵗ`). -/
def SubABt (a b c : Mat) : Mat := abt_intern true false a b c

/-! ## The NgGEMM policy-composition layer (ngblas.hpp lines 354-483) -/

/-- The generic `NgGEMM<ADD,POS>` template body (ngblas.hpp lines 354-378):
`c = ±a*b` or `c ∓= a*b` on the `a.Height() × b.Width()` block. -/
def NgGEMM_generic (ADD POS : Bool) (a b c : Mat) : Mat :=
  ⟨c.height, c.width, fun i j =>
    if i < a.height ∧ j < b.width then
      gemmVal ADD POS (c.data i j) (∑ k ∈ Finset.range a.width, a.data i k * b.data k j)
    else c.data i j⟩

/-- The four row-major × row-major `NgGEMM` specializations (ngblas.hpp lines
380-417): each resolves to one dispatched entry point. -/
def NgGEMM_RR (ADD POS : Bool) (a b c : Mat) : Mat :=
  match ADD, POS with
  | false, true => MultMatMat a b c
  | true, true => AddAB a b c
  | true, false => SubAB a b c
  | false, false => MinusMultAB a b c

/-- The four `NgGEMM` specializations with a column-major right operand
(ngblas.hpp lines 421-455): each routes to the `A·Bᵗ` family on `Trans(b)`. -/
def NgGEMM_RC (ADD POS : Bool) (a b c : Mat) : Mat :=
  match ADD, POS with
  | false, true => MultABt a b.transpose c
  | true, true => AddABt a b.transpose c
  | true, false => SubABt a b.transpose c
  | false, false => MinusMultABt a b.transpose c

/-- The four `NgGEMM` specializations with a column-major left operand
(ngblas.hpp lines 460-476): each routes to `MatMat_AtB<ADD,POS>` on `Trans(a)`. -/
def NgGEMM_CR (ADD POS : Bool) (a b c : Mat) : Mat :=
  MatMat_AtB ADD POS a.transpose b c

/-- The memory-order tag of a SliceMatrix operand (the `ORDERING` template
parameter of ngblas.hpp). -/
inductive MatOrder where
  | rowMajor : MatOrder
  | colMajor : MatOrder
deriving DecidableEq

/-- `Trans` flips the memory-order tag of the view it wraps. -/
def MatOrder.flipped : MatOrder → MatOrder
  | MatOrder.rowMajor => MatOrder.colMajor
  | MatOrder.colMajor => MatOrder.rowMajor

/-- The row-major-result `NgGEMM<ADD,POS,orda,ordb>` call surface of
ngblas.hpp lines 354-476: the (RowMajor,RowMajor), (RowMajor,ColMajor) and
(ColMajor,RowMajor) operand-order instantiations resolve to the
specializations of lines 380-476; the (ColMajor,ColMajor) instantiation has
no specialization and falls to the generic template body of lines 354-378. -/
def NgGEMM_RMres (ADD POS : Bool) (orda ordb : MatOrder) (a b c : Mat) : Mat :=
  match orda, ordb with
  | MatOrder.rowMajor, MatOrder.rowMajor => NgGEMM_RR ADD POS a b c
  | MatOrder.rowMajor, MatOrder.colMajor => NgGEMM_RC ADD POS a b c
  | MatOrder.colMajor, MatOrder.rowMajor => NgGEMM_CR ADD POS a b c
  | MatOrder.colMajor, MatOrder.colMajor => NgGEMM_generic ADD POS a b c

/-- The column-major-result `NgGEMM` template (ngblas.hpp lines 479-483):
`NgGEMM<ADD,POS> (Trans(b), Trans(a), Trans(c))` — both operands and the
result transposed and the operand order swapped. Transposing flips each
operand's ordering, so the inner row-major-result call resolves on the
orderings `(ordb flipped, orda flipped)`. -/
def NgGEMM_CMres (ADD POS : Bool) (orda ordb : MatOrder) (a b c : Mat) : Mat :=
  (NgGEMM_RMres ADD POS ordb.flipped orda.flipped
    b.transpose a.transpose c.transpose).transpose

/-! ## Diagonal scaling (ngblas.hpp lines 284-293) -/

/-- Modelled from the spec: `ScaleCols (a, diag)` — column `j` of `a` is
multiplied by `diag[j]`, in place; the extern body is not part of the sources. -/
def ScaleCols (a : Mat) (diag : Nat → ℚ) : Mat :=
  ⟨a.height, a.width, fun i j =>
    if i < a.height ∧ j < a.width then a.data i j * diag j else a.data i j⟩

/-- `ScaleRows (a, diag)` (ngblas.hpp lines 289-293): defined as
`ScaleCols (Trans(a), diag)`; the transpose of the mutated transposed view
reads the buffer back in the original orientation. -/
def ScaleRows (a : Mat) (diag : Nat → ℚ) : Mat :=
  (ScaleCols a.transpose diag).transpose

/-! ## MultiVector batch operations (ngblas.hpp lines 325-340) -/

/-- Modelled from the spec: `PairwiseInnerProduct (n, x, y, ip)` — the extern
body is not part of the sources; fills `ip(i,j) = <x_i, y_j>` over vectors of
length `n`. Collections are modelled as `Nat → Nat → ℚ`, row `i` being the
buffer of handle `i`. -/
def PairwiseInnerProduct (n : Nat) (x y : Nat → Nat → ℚ) : Nat → Nat → ℚ :=
  fun i j => ∑ k ∈ Finset.range n, x i k * y j k

/-- Modelled from the spec: `MultiVectorAdd (n, x, y, a)` — the extern body is
not part of the sources; updates `x_i += sum_j a(i,j) y_j` for the `mx`
destination handles over the `my` source handles, entries `k < n`. -/
def MultiVectorAdd (n mx my : Nat) (x y : Nat → Nat → ℚ) (a : Nat → Nat → ℚ) :
    Nat → Nat → ℚ :=
  fun i k =>
    if i < mx ∧ k < n then x i k + ∑ j ∈ Finset.range my, a i j * y j k
    else x i k

/-- The identity coefficient matrix. -/
def idCoeff : Nat → Nat → ℚ := fun i j => if i = j then 1 else 0

/-! ## Schur complement (eigensystem.hpp lines 15-19) -/

/-- Modelled from the spec: an explicit matrix inverse
(`A⁻¹ = det(A)⁻¹ · adj(A)` when the determinant is nonzero); the behavior on
a singular elimination block is implementation-defined per the spec, modelled
here as the zero matrix. -/
def invQ {k : Type} [Fintype k] [DecidableEq k] (A : Matrix k k ℚ) : Matrix k k ℚ :=
  if A.det = 0 then 0 else A.det⁻¹ • A.adjugate

/-- The kept × kept block `A_kk` of `A` (indices not marked in `used`). -/
def schurKK {n : Nat} (A : Matrix (Fin n) (Fin n) ℚ) (used : Fin n → Bool) :
    Matrix {i : Fin n // used i = false} {i : Fin n // used i = false} ℚ :=
  A.submatrix Subtype.val Subtype.val

/-- The kept × eliminated block `A_ke`. -/
def schurKE {n : Nat} (A : Matrix (Fin n) (Fin n) ℚ) (used : Fin n → Bool) :
    Matrix {i : Fin n // used i = false} {i : Fin n // used i = true} ℚ :=
  A.submatrix Subtype.val Subtype.val

/-- The eliminated × eliminated block `A_ee`. -/
def schurEE {n : Nat} (A : Matrix (Fin n) (Fin n) ℚ) (used : Fin n → Bool) :
    Matrix {i : Fin n // used i = true} {i : Fin n // used i = true} ℚ :=
  A.submatrix Subtype.val Subtype.val

/-- The eliminated × kept block `A_ek`. -/
def schurEK {n : Nat} (A : Matrix (Fin n) (Fin n) ℚ) (used : Fin n → Bool) :
    Matrix {i : Fin n // used i = true} {i : Fin n // used i = false} ℚ :=
  A.submatrix Subtype.val Subtype.val

/-- Modelled from the spec: `CalcSchurComplement (a, s, used, lh)` — only the
declaration appears in the sources (eigensystem.hpp lines 15-19); per the
spec it partitions the index set by the bit-set `used` and computes
`S = A_kk - A_ke · A_ee⁻¹ · A_ek` over the kept block. -/
def CalcSchurComplement {n : Nat} (A : Matrix (Fin n) (Fin n) ℚ) (used : Fin n → Bool) :
    Matrix {i : Fin n // used i = false} {i : Fin n // used i = false} ℚ :=
  schurKK A used - schurKE A used * invQ (schurEE A used) * schurEK A used

end ngbla

namespace ngbla

/-! ## Helper lemmas -/

/-- Clamping with `min` then expanding the last slot to the general loop
recovers the true length: the loop length run by the dispatched slot is `n`. -/
theorem slotLen_min (last n : Nat) : slotLen last (min n last) n = n := by
  unfold slotLen
  rcases Nat.le_total n last with h | h
  · rw [Nat.min_eq_left h]
    split <;> omega
  · rw [Nat.min_eq_right h]
    simp

/-- The last slot of a table runs the general loop: its loop length is the
true length, whatever it is. -/
theorem slotLen_last (last n : Nat) : slotLen last last n = n := by
  simp [slotLen]

/-! ## C9: every dispatched entry point clamps its table index in bounds -/

/-- C9: for every input size, including 0 and sizes beyond the specialized
range, each of the table-dispatched entry points MultMatVec, MultAddMatVec,
MultMatTransVec, MultAddMatTransVec, MultMatMat, MinusMultAB, AddAB, SubAB
and MatMat_AtB computes its table index as `min(size, table length - 1)`,
so the index is always strictly below the table length and a valid routine
is invoked. -/
theorem dispatch_index_in_bounds (n : Nat) :
    multMatVec_idx n < dispatch_matvec_size ∧
    multAddMatVec_idx n < dispatch_addmatvec_size ∧
    multMatTransVec_idx n < dispatch_mattransvec_size ∧
    multAddMatTransVec_idx n < dispatch_addmattransvec_size ∧
    multMatMat_idx n < dispatch_multAB_size ∧
    minusMultAB_idx n < dispatch_minusmultAB_size ∧
    addAB_idx n < dispatch_addAB_size ∧
    subAB_idx n < dispatch_subAB_size ∧
    matMat_AtB_idx n < dispatch_atb_size := by
  unfold multMatVec_idx multAddMatVec_idx multMatTransVec_idx multAddMatTransVec_idx
    multMatMat_idx minusMultAB_idx addAB_idx subAB_idx matMat_AtB_idx
    dispatch_matvec_size dispatch_addmatvec_size dispatch_mattransvec_size
    dispatch_addmattransvec_size dispatch_multAB_size dispatch_minusmultAB_size
    dispatch_addAB_size dispatch_subAB_size dispatch_atb_size
  omega

/-! ## C10: CopyVector and AddVector iterate over the destination range only -/

/-- C10: the generic CopyVector and AddVector iterate over `Range(dest)`
only — exactly the first `dest.Size()` entries are written (copied resp.
updated with `dest[i] += alpha*src[i]`), entries beyond `dest.Size()` are
left unchanged, and the result depends only on entries of `src` below
`dest.Size()`, so a longer source's trailing elements never influence the
result. -/
theorem copy_add_vector_frame (src dest : Vec) (alpha : ℚ) :
    (CopyVector src dest).size = dest.size ∧
    (AddVector alpha src dest).size = dest.size ∧
    (∀ i, i < dest.size → (CopyVector src dest).data i = src.data i) ∧
    (∀ i, dest.size ≤ i → (CopyVector src dest).data i = dest.data i) ∧
    (∀ i, i < dest.size →
      (AddVector alpha src dest).data i = dest.data i + alpha * src.data i) ∧
    (∀ i, dest.size ≤ i → (AddVector alpha src dest).data i = dest.data i) ∧
    (∀ src2 : Vec, (∀ i, i < dest.size → src2.data i = src.data i) →
      ∀ i, (CopyVector src2 dest).data i = (CopyVector src dest).data i ∧
        (AddVector alpha src2 dest).data i = (AddVector alpha src dest).data i) := by
  refine ⟨rfl, rfl, ?_, ?_, ?_, ?_, ?_⟩
  · intro i hi
    simp [CopyVector, hi]
  · intro i hi
    simp [CopyVector, Nat.not_lt.mpr hi]
  · intro i hi
    simp [AddVector, hi]
  · intro i hi
    simp [AddVector, Nat.not_lt.mpr hi]
  · intro src2 hagree i
    constructor
    · by_cases hi : i < dest.size
      · simp [CopyVector, hi, hagree i hi]
      · simp [CopyVector, hi]
    · by_cases hi : i < dest.size
      · simp [AddVector, hi, hagree i hi]
      · simp [AddVector, hi]

/-- Witness for C10 at concrete vectors: the source entry beyond the
destination size differs between the two sources, yet every entry of the
results agrees. -/
theorem copy_add_vector_frame_witness :
    (CopyVector (Vec.mk 3 (fun i => if i = 2 then 9 else 1)) (Vec.mk 2 (fun _ => 0))).data 0 =
      (CopyVector (Vec.mk 3 (fun _ => 1)) (Vec.mk 2 (fun _ => 0))).data 0 :=
  ((copy_add_vector_frame (Vec.mk 3 (fun _ => 1)) (Vec.mk 2 (fun _ => 0)) 1).2.2.2.2.2.2
    (Vec.mk 3 (fun i => if i = 2 then 9 else 1)) (by decide) 0).1

/-! ## C1: the GEMV dispatch entry points match the generic reference -/

/-- C1: for every matrix/vector shape (hence in particular for contracted
lengths from 0 up to twice the largest dispatch-table index), the dispatched
entry points MultMatVec, MultAddMatVec, MultMatTransVec and
MultAddMatTransVec compute the same result as the generic reference
implementations (`y := A·x`, `y += s·(A·x)` and the `Aᵗ` variants); each
dispatch index is the contracted vector's length clamped to the last table
slot, and the last slot's routine computes the reference result for every
length. -/
theorem gemv_dispatch_matches_reference (a : Nat → Nat → ℚ) (scal : ℚ) (x y : Vec) :
    (∀ i, (MultMatVec a x y).data i = (refMultMatVec a x y).data i) ∧
    (∀ i, (MultAddMatVec scal a x y).data i = (refMultAddMatVec scal a x y).data i) ∧
    (∀ i, (MultMatTransVec a x y).data i = (refMultMatTransVec a x y).data i) ∧
    (∀ i, (MultAddMatTransVec scal a x y).data i =
      (refMultAddMatTransVec scal a x y).data i) ∧
    multMatVec_idx x.size = min x.size (dispatch_matvec_size - 1) ∧
    multAddMatVec_idx x.size = min x.size (dispatch_addmatvec_size - 1) ∧
    multMatTransVec_idx x.size = min x.size (dispatch_mattransvec_size - 1) ∧
    multAddMatTransVec_idx x.size = min x.size (dispatch_addmattransvec_size - 1) ∧
    (∀ i, (matvec_slot (dispatch_matvec_size - 1) (dispatch_matvec_size - 1) a x y).data i =
      (refMultMatVec a x y).data i) ∧
    (∀ i, (addmattransvec_slot (dispatch_addmattransvec_size - 1)
      (dispatch_addmattransvec_size - 1) scal a x y).data i =
      (refMultAddMatTransVec scal a x y).data i) := by
  refine ⟨?_, ?_, ?_, ?_, rfl, rfl, rfl, rfl, ?_, ?_⟩
  · intro i
    simp only [MultMatVec, matvec_slot, refMultMatVec, multMatVec_idx, slotLen_min]
  · intro i
    simp only [MultAddMatVec, addmatvec_slot, refMultAddMatVec, multAddMatVec_idx, slotLen_min]
  · intro i
    simp only [MultMatTransVec, mattransvec_slot, refMultMatTransVec, multMatTransVec_idx,
      slotLen_min]
  · intro i
    simp only [MultAddMatTransVec, addmattransvec_slot, refMultAddMatTransVec,
      multAddMatTransVec_idx, slotLen_min]
  · intro i
    simp only [matvec_slot, refMultMatVec, slotLen_last]
  · intro i
    simp only [addmattransvec_slot, refMultAddMatTransVec, slotLen_last]

/-! ## C2: zero-sized operands in the GEMM family -/

/-- C2 counterexample: a 1×0 left operand and a 0×1 right operand (both have
a zero-sized width resp. height), yet `MultMatMat` does not leave the output
unchanged: the early return only checks `a.Height()==0 || b.Width()==0`, so
the call dispatches to slot 0, which overwrites `C` with the empty-contraction
product, i.e. zero, clobbering the stored 5. -/
theorem multMatMat_zero_contraction_not_noop :
    ¬ ((MultMatMat (Mat.mk 1 0 (fun _ _ => 0)) (Mat.mk 0 1 (fun _ _ => 0))
        (Mat.mk 1 1 (fun _ _ => 5))).data 0 0 =
      (Mat.mk 1 1 (fun _ _ => 5)).data 0 0) := by
  decide

/-- C2 amended: for MultMatMat, MinusMultAB, AddAB and SubAB, a zero
`a.Height()` or zero `b.Width()` triggers the early return and the call
leaves every element of `C` unchanged; a zero contraction dimension
(`a.Width() = 0`, hence `b.Height() = 0`) is *not* an early return — it
leaves `C` unchanged for the accumulating AddAB and SubAB (adding or
subtracting zero), but overwrites the `a.Height() × b.Width()` block of `C`
with `±0` for the overwriting MultMatMat and MinusMultAB. -/
theorem gemm_zero_size_frame (a b c : Mat) :
    ((a.height = 0 ∨ b.width = 0) → ∀ i j,
      (MultMatMat a b c).data i j = c.data i j ∧
      (MinusMultAB a b c).data i j = c.data i j ∧
      (AddAB a b c).data i j = c.data i j ∧
      (SubAB a b c).data i j = c.data i j) ∧
    (a.width = 0 → ∀ i j,
      (AddAB a b c).data i j = c.data i j ∧
      (SubAB a b c).data i j = c.data i j) ∧
    (a.width = 0 → ∀ i j, i < a.height → j < b.width →
      (MultMatMat a b c).data i j = 0 ∧
      (MinusMultAB a b c).data i j = 0) := by
  refine ⟨?_, ?_, ?_⟩
  · intro h i j
    simp [MultMatMat, MinusMultAB, AddAB, SubAB, h]
  · intro hw i j
    constructor
    · by_cases h : a.height = 0 ∨ b.width = 0
      · simp [AddAB, h]
      · simp only [AddAB, h, if_false]
        simp only [gemmAB_slot, gemmVal, hw]
        have hs : slotLen (dispatch_addAB_size - 1) (addAB_idx 0) 0 = 0 := by
          have := slotLen_min (dispatch_addAB_size - 1) 0
          simpa [addAB_idx] using this
        rw [hs]
        split <;> simp
    · by_cases h : a.height = 0 ∨ b.width = 0
      · simp [SubAB, h]
      · simp only [SubAB, h, if_false]
        simp only [gemmAB_slot, gemmVal, hw]
        have hs : slotLen (dispatch_subAB_size - 1) (subAB_idx 0) 0 = 0 := by
          have := slotLen_min (dispatch_subAB_size - 1) 0
          simpa [subAB_idx] using this
        rw [hs]
        split <;> simp
  · intro hw i j hi hj
    have h : ¬ (a.height = 0 ∨ b.width = 0) := by omega
    constructor
    · simp only [MultMatMat, h, if_false]
      simp only [gemmAB_slot, gemmVal, hw]
      have hs : slotLen (dispatch_multAB_size - 1) (multMatMat_idx 0) 0 = 0 := by
        have := slotLen_min (dispatch_multAB_size - 1) 0
        simpa [multMatMat_idx] using this
      rw [hs]
      simp [hi, hj]
    · simp only [MinusMultAB, h, if_false]
      simp only [gemmAB_slot, gemmVal, hw]
      have hs : slotLen (dispatch_minusmultAB_size - 1) (minusMultAB_idx 0) 0 = 0 := by
        have := slotLen_min (dispatch_minusmultAB_size - 1) 0
        simpa [minusMultAB_idx] using this
      rw [hs]
      simp [hi, hj]

/-- Witness for C2 amended at concrete matrices: a zero-height left operand
makes all four operations no-ops, and a zero contraction dimension leaves the
accumulating AddAB unchanged but makes MultMatMat write a zero. -/
theorem gemm_zero_size_frame_witness :
    (MultMatMat (Mat.mk 0 2 (fun _ _ => 1)) (Mat.mk 2 2 (fun _ _ => 1))
      (Mat.mk 2 2 (fun _ _ => 3))).data 0 0 = (Mat.mk 2 2 (fun _ _ => 3)).data 0 0 ∧
    (AddAB (Mat.mk 1 0 (fun _ _ => 0)) (Mat.mk 0 1 (fun _ _ => 0))
      (Mat.mk 1 1 (fun _ _ => 5))).data 0 0 = (Mat.mk 1 1 (fun _ _ => 5)).data 0 0 ∧
    (MultMatMat (Mat.mk 1 0 (fun _ _ => 0)) (Mat.mk 0 1 (fun _ _ => 0))
      (Mat.mk 1 1 (fun _ _ => 5))).data 0 0 = 0 :=
  ⟨((gemm_zero_size_frame (Mat.mk 0 2 (fun _ _ => 1)) (Mat.mk 2 2 (fun _ _ => 1))
      (Mat.mk 2 2 (fun _ _ => 3))).1 (Or.inl rfl) 0 0).1,
   ((gemm_zero_size_frame (Mat.mk 1 0 (fun _ _ => 0)) (Mat.mk 0 1 (fun _ _ => 0))
      (Mat.mk 1 1 (fun _ _ => 5))).2.1 rfl 0 0).1,
   ((gemm_zero_size_frame (Mat.mk 1 0 (fun _ _ => 0)) (Mat.mk 0 1 (fun _ _ => 0))
      (Mat.mk 1 1 (fun _ _ => 5))).2.2 rfl 0 0 (by decide) (by decide)).1⟩

/-! ## C7: ScaleRows via ScaleCols on the transposed view -/

/-- C7: `ScaleRows (a, d)` is exactly `ScaleCols` applied to the transposed
view — it multiplies row `i` of `a` by `d[i]` in place — and for every matrix
and every diagonal with all entries nonzero, `ScaleRows (a, d)` followed by
`ScaleCols (Trans(result), 1/d)` returns every entry of `a` unchanged (the
final transpose reads the buffer back in the original orientation). -/
theorem scaleRows_scaleCols_roundtrip (a : Mat) (d : Nat → ℚ) :
    ScaleRows a d = (ScaleCols a.transpose d).transpose ∧
    (ScaleRows a d).height = a.height ∧
    (ScaleRows a d).width = a.width ∧
    (∀ i j, i < a.height → j < a.width → (ScaleRows a d).data i j = a.data i j * d i) ∧
    (∀ i j, ¬ (i < a.height ∧ j < a.width) → (ScaleRows a d).data i j = a.data i j) ∧
    ((∀ i, d i ≠ 0) → ∀ i j,
      ((ScaleCols (ScaleRows a d).transpose (fun k => (d k)⁻¹)).transpose).data i j =
        a.data i j) := by
  refine ⟨rfl, rfl, rfl, ?_, ?_, ?_⟩
  · intro i j hi hj
    simp [ScaleRows, ScaleCols, Mat.transpose, hi, hj]
  · intro i j h
    simp only [ScaleRows, ScaleCols, Mat.transpose]
    rw [if_neg (by tauto)]
  · intro hd i j
    by_cases hij : i < a.height ∧ j < a.width
    · simp only [ScaleRows, ScaleCols, Mat.transpose]
      rw [if_pos ⟨hij.2, hij.1⟩, if_pos ⟨hij.2, hij.1⟩]
      rw [mul_assoc, mul_inv_cancel₀ (hd i), mul_one]
    · simp only [ScaleRows, ScaleCols, Mat.transpose]
      rw [if_neg (by tauto), if_neg (by tauto)]

/-- Witness for C7 at a concrete 2×2 matrix with the constant diagonal 2:
the round trip returns the original entry. -/
theorem scaleRows_scaleCols_roundtrip_witness :
    ((ScaleCols (ScaleRows (Mat.mk 2 2 (fun i j => (i : ℚ) + 2 * j + 1)) (fun _ => 2)).transpose
      (fun k => ((fun _ => (2 : ℚ)) k)⁻¹)).transpose).data 0 1 =
      (Mat.mk 2 2 (fun i j => (i : ℚ) + 2 * j + 1)).data 0 1 :=
  (scaleRows_scaleCols_roundtrip (Mat.mk 2 2 (fun i j => (i : ℚ) + 2 * j + 1))
    (fun _ => 2)).2.2.2.2.2 (fun _ => by norm_num) 0 1

/-! ## C8: PairwiseInnerProduct / MultiVectorAdd round trip -/

/-- C8 counterexample: for the single vector `(1)` of length 1, computing the
pairwise inner products and then calling `MultiVectorAdd` with the identity
coefficient matrix does not reproduce the original vector: `x_i += sum_j
delta(i,j) x_j` adds `x_i` to itself, giving 2 instead of 1. -/
theorem multiVectorAdd_identity_doubles :
    PairwiseInnerProduct 1 (fun _ _ => 1) (fun _ _ => 1) 0 0 = 1 ∧
    ¬ (MultiVectorAdd 1 1 1 (fun _ _ => 1) (fun _ _ => 1) idCoeff 0 0 =
      (fun (_ _ : Nat) => (1 : ℚ)) 0 0) := by
  constructor
  · simp [PairwiseInnerProduct]
  · simp only [MultiVectorAdd, idCoeff]
    norm_num

/-- C8 amended: `PairwiseInnerProduct` fills `ip(i,j) = <x_i, y_j>`, and
`MultiVectorAdd` with the identity coefficient matrix adds each source vector
exactly once to the corresponding destination: `x_i` becomes `x_i + y_i`.
The round trip therefore doubles the vectors when destination and source are
the same collection; it reproduces the originals exactly when the destination
collection is zero. -/
theorem multiVectorAdd_identity_adds_once (n mx my : Nat) (x y : Nat → Nat → ℚ) :
    (∀ i j, PairwiseInnerProduct n x y i j = ∑ k ∈ Finset.range n, x i k * y j k) ∧
    (∀ i k, i < mx → k < n → i < my →
      MultiVectorAdd n mx my x y idCoeff i k = x i k + y i k) ∧
    (∀ i k, i < mx → k < n → i < my →
      MultiVectorAdd n mx my (fun _ _ => 0) y idCoeff i k = y i k) := by
  have key : ∀ i k, i < my → (∑ j ∈ Finset.range my, idCoeff i j * y j k) = y i k := by
    intro i k hi
    have : ∀ j ∈ Finset.range my, idCoeff i j * y j k = if i = j then y j k else 0 := by
      intro j _
      simp only [idCoeff]
      split <;> simp
    rw [Finset.sum_congr rfl this, Finset.sum_ite_eq]
    simp [Finset.mem_range.mpr hi]
  refine ⟨fun i j => rfl, ?_, ?_⟩
  · intro i k hx hk hy
    have hc : i < mx ∧ k < n := ⟨hx, hk⟩
    simp only [MultiVectorAdd, if_pos hc]
    rw [key i k hy]
  · intro i k hx hk hy
    have hc : i < mx ∧ k < n := ⟨hx, hk⟩
    simp only [MultiVectorAdd, if_pos hc]
    rw [key i k hy]
    simp

/-- Witness for C8 amended: with a zero destination collection and the
identity coefficients the source vector is reproduced. -/
theorem multiVectorAdd_identity_adds_once_witness :
    MultiVectorAdd 1 1 1 (fun _ _ => 0) (fun _ _ => 7) idCoeff 0 0 = (fun (_ _ : Nat) => (7 : ℚ)) 0 0 :=
  (multiVectorAdd_identity_adds_once 1 1 1 (fun _ _ => 0) (fun _ _ => 7)).2.2 0 0
    (by decide) (by decide) (by decide)

/-! ## C6: the indirect scatter variant -/

/-- A buffer index not scattered to is left unchanged by the scatter loop. -/
theorem scatterAdd_not_mem (s : ℚ) (a : Nat → Nat → ℚ) (x : Vec) :
    ∀ (ind : List Nat) (start : Nat) (y0 : Nat → ℚ) (q : Nat), q ∉ ind →
      scatterAdd s a x start ind y0 q = y0 q := by
  intro ind
  induction ind with
  | nil => intro start y0 q _; rfl
  | cons p rest ih =>
      intro start y0 q hq
      have hqp : q ≠ p := fun h => hq (h ▸ List.mem_cons_self p rest)
      have hqr : q ∉ rest := fun h => hq (List.mem_cons_of_mem p h)
      simp only [scatterAdd]
      rw [ih (start + 1) _ q hqr]
      simp [hqp]

/-- With distinct scatter targets, the entry at target `k` receives exactly
one update: `s` times the contracted inner product of column `start + k`. -/
theorem scatterAdd_get (s : ℚ) (a : Nat → Nat → ℚ) (x : Vec) :
    ∀ (ind : List Nat), ind.Nodup → ∀ (start : Nat) (y0 : Nat → ℚ) (k : Nat)
      (hk : k < ind.length),
      scatterAdd s a x start ind y0 (ind.get ⟨k, hk⟩) =
        y0 (ind.get ⟨k, hk⟩) + s * dotColumn a x (start + k) := by
  intro ind
  induction ind with
  | nil => intro _ start y0 k hk; exact absurd hk (by simp)
  | cons p rest ih =>
      intro hnd start y0 k hk
      have hp : p ∉ rest := (List.nodup_cons.mp hnd).1
      have hr : rest.Nodup := (List.nodup_cons.mp hnd).2
      cases k with
      | zero =>
          simp only [List.get, scatterAdd]
          rw [scatterAdd_not_mem s a x rest (start + 1) _ p hp]
          simp
      | succ k =>
          have hk' : k < rest.length := by simpa using hk
          have hne : rest.get ⟨k, hk'⟩ ≠ p := fun h => hp (h ▸ List.get_mem rest k hk')
          have hget : (p :: rest).get ⟨k + 1, hk⟩ = rest.get ⟨k, hk'⟩ := rfl
          rw [hget]
          simp only [scatterAdd]
          rw [ih hr (start + 1) _ k hk']
          simp only [hne, if_false]
          have harith : start + 1 + k = start + (k + 1) := by omega
          rw [harith]

/-- C6 counterexample: the claim's dispatch rule is keyed on the contracted
vector `x`, but the source keys on the output vector `y`: for `x` of length 2
(at most the threshold 24) and `y` of length 30, the claim routes to table
slot 2 while the code takes the non-dispatched fallback. -/
theorem mamtvi_route_counterexample :
    mamtviRoute (Vec.mk 30 (fun _ => 0)) = DispatchRoute.intern ∧
    mamtviRouteClaimed (Vec.mk 2 (fun _ => 0)) = DispatchRoute.table 2 ∧
    ¬ (mamtviRoute (Vec.mk 30 (fun _ => 0)) = mamtviRouteClaimed (Vec.mk 2 (fun _ => 0))) := by
  decide

/-- C6 amended: `MultAddMatTransVecIndirect (s, A, x, y, ind)` computes
`y[ind[i]] += s * sum_j x[j]*A[j,i]` for every position `i` of the index map
(entries not scattered to are untouched; with distinct scatter targets each
receives exactly one update), but it dispatches on the *output* vector's
length `y.Size()`: table slot `y.Size()` when `y.Size() <= 24`, the explicit
non-dispatched fallback for any larger size — not on the contracted vector's
length. -/
theorem mamtvi_amended (s : ℚ) (a : Nat → Nat → ℚ) (x y : Vec) (ind : List Nat) :
    (y.size ≤ 24 → mamtviRoute y = DispatchRoute.table y.size ∧
      MultAddMatTransVecIndirect s a x y ind = mamtviKernel s a x y ind) ∧
    (24 < y.size → mamtviRoute y = DispatchRoute.intern ∧
      MultAddMatTransVecIndirect s a x y ind = mamtviIntern s a x y ind) ∧
    (∀ q, q ∉ ind → (MultAddMatTransVecIndirect s a x y ind).data q = y.data q) ∧
    (ind.Nodup → ∀ k (hk : k < ind.length),
      (MultAddMatTransVecIndirect s a x y ind).data (ind.get ⟨k, hk⟩) =
        y.data (ind.get ⟨k, hk⟩) +
          s * ∑ j ∈ Finset.range x.size, x.data j * a j k) := by
  have hdata : (MultAddMatTransVecIndirect s a x y ind).data =
      scatterAdd s a x 0 ind y.data := by
    by_cases h : y.size ≤ 24 <;>
      simp [MultAddMatTransVecIndirect, mamtviKernel, mamtviIntern, h]
  refine ⟨?_, ?_, ?_, ?_⟩
  · intro h
    exact ⟨by simp [mamtviRoute, h], by simp [MultAddMatTransVecIndirect, h]⟩
  · intro h
    have h' : ¬ y.size ≤ 24 := by omega
    exact ⟨by simp [mamtviRoute, h'], by simp [MultAddMatTransVecIndirect, h']⟩
  · intro q hq
    rw [hdata]
    exact scatterAdd_not_mem s a x ind 0 y.data q hq
  · intro hnd k hk
    rw [hdata, scatterAdd_get s a x ind hnd 0 y.data k hk]
    simp [dotColumn]

/-- Witness for C6 amended: a concrete scatter with distinct targets and a
concrete untouched position. -/
theorem mamtvi_amended_witness :
    (MultAddMatTransVecIndirect 2 (fun _ _ => 1) (Vec.mk 1 (fun _ => 3))
      (Vec.mk 2 (fun _ => 10)) [1, 0]).data (([1, 0] : List Nat).get ⟨0, by decide⟩) =
      (Vec.mk 2 (fun _ => 10)).data (([1, 0] : List Nat).get ⟨0, by decide⟩) +
        2 * ∑ j ∈ Finset.range (Vec.mk 1 (fun _ => (3 : ℚ))).size,
          (Vec.mk 1 (fun _ => (3 : ℚ))).data j * (fun _ _ => (1 : ℚ)) j 0 :=
  (mamtvi_amended 2 (fun _ _ => 1) (Vec.mk 1 (fun _ => 3))
    (Vec.mk 2 (fun _ => 10)) [1, 0]).2.2.2 (by decide) 0 (by decide)

/-! ## C5: the NgGEMM policy-composition layer -/

/-- A dispatched `A·B` entry point (early return plus clamped table slot)
agrees pointwise with the generic `NgGEMM` semantics of the same policy. -/
theorem gemmAB_dispatch_eq (ADD POS : Bool) (last : Nat) (a b c : Mat) (i j : Nat) :
    (if a.height = 0 ∨ b.width = 0 then c
      else gemmAB_slot ADD POS last (min a.width last) a b c).data i j =
      (NgGEMM_generic ADD POS a b c).data i j := by
  by_cases h : a.height = 0 ∨ b.width = 0
  · rw [if_pos h]
    simp only [NgGEMM_generic]
    rw [if_neg (by rintro ⟨hi, hj⟩; omega)]
  · rw [if_neg h]
    simp only [gemmAB_slot, NgGEMM_generic, slotLen_min]

/-- `MultMatMat` agrees pointwise with the generic overwrite-positive policy. -/
theorem multMatMat_eq_generic (a b c : Mat) (i j : Nat) :
    (MultMatMat a b c).data i j = (NgGEMM_generic false true a b c).data i j := by
  simp only [MultMatMat, multMatMat_idx]
  exact gemmAB_dispatch_eq false true (dispatch_multAB_size - 1) a b c i j

/-- `MinusMultAB` agrees pointwise with the generic overwrite-negative policy. -/
theorem minusMultAB_eq_generic (a b c : Mat) (i j : Nat) :
    (MinusMultAB a b c).data i j = (NgGEMM_generic false false a b c).data i j := by
  simp only [MinusMultAB, minusMultAB_idx]
  exact gemmAB_dispatch_eq false false (dispatch_minusmultAB_size - 1) a b c i j

/-- `AddAB` agrees pointwise with the generic accumulate-positive policy. -/
theorem addAB_eq_generic (a b c : Mat) (i j : Nat) :
    (AddAB a b c).data i j = (NgGEMM_generic true true a b c).data i j := by
  simp only [AddAB, addAB_idx]
  exact gemmAB_dispatch_eq true true (dispatch_addAB_size - 1) a b c i j

/-- `SubAB` agrees pointwise with the generic accumulate-negative policy. -/
theorem subAB_eq_generic (a b c : Mat) (i j : Nat) :
    (SubAB a b c).data i j = (NgGEMM_generic true false a b c).data i j := by
  simp only [SubAB, subAB_idx]
  exact gemmAB_dispatch_eq true false (dispatch_subAB_size - 1) a b c i j

/-- The threshold-dispatched `A·Bᵗ` entry points agree pointwise with the
non-dispatched routine of the same policy: the table slot taken below the
threshold contracts over exactly `a.Width()`. -/
theorem abt_dispatch_eq (ADD POS : Bool) (a b c : Mat) (i j : Nat) :
    (if a.width ≤ 24 then abt_slot ADD POS a.width a b c
      else abt_intern ADD POS a b c).data i j = (abt_intern ADD POS a b c).data i j := by
  by_cases h : a.width ≤ 24 <;> simp [abt_slot, abt_intern, h]

/-- Each row-major × row-major `NgGEMM` specialization agrees pointwise with
the generic semantics of its policy. -/
theorem nggemm_rr_eq_generic (ADD POS : Bool) (a b c : Mat) (i j : Nat) :
    (NgGEMM_RR ADD POS a b c).data i j = (NgGEMM_generic ADD POS a b c).data i j := by
  cases ADD <;> cases POS
  · exact minusMultAB_eq_generic a b c i j
  · exact multMatMat_eq_generic a b c i j
  · exact subAB_eq_generic a b c i j
  · exact addAB_eq_generic a b c i j

/-- Each column-major-right-operand `NgGEMM` specialization (routed to the
`A·Bᵗ` family on `Trans(b)`) agrees pointwise with the generic semantics. -/
theorem nggemm_rc_eq_generic (ADD POS : Bool) (a b c : Mat) (i j : Nat) :
    (NgGEMM_RC ADD POS a b c).data i j = (NgGEMM_generic ADD POS a b c).data i j := by
  have key : ∀ AD PO : Bool,
      (abt_intern AD PO a b.transpose c).data i j =
        (NgGEMM_generic AD PO a b c).data i j := by
    intro AD PO
    simp only [abt_intern, NgGEMM_generic, Mat.transpose]
  cases ADD <;> cases POS
  · exact key false false
  · calc (MultABt a b.transpose c).data i j
          = (abt_intern false true a b.transpose c).data i j := by
            have := abt_dispatch_eq false true a b.transpose c i j
            simpa [MultABt] using this
      _ = (NgGEMM_generic false true a b c).data i j := key false true
  · exact key true false
  · calc (AddABt a b.transpose c).data i j
          = (abt_intern true true a b.transpose c).data i j := by
            have := abt_dispatch_eq true true a b.transpose c i j
            simpa [AddABt] using this
      _ = (NgGEMM_generic true true a b c).data i j := key true true

/-- The column-major-left-operand `NgGEMM` specialization (routed to
`MatMat_AtB` on `Trans(a)`) agrees pointwise with the generic semantics
whenever the contraction dimension is positive or the policy accumulates. -/
theorem nggemm_cr_eq_generic (ADD POS : Bool) (a b c : Mat)
    (hpre : 0 < a.width ∨ ADD = true) (i j : Nat) :
    (NgGEMM_CR ADD POS a b c).data i j = (NgGEMM_generic ADD POS a b c).data i j := by
  simp only [NgGEMM_CR, MatMat_AtB, Mat.transpose]
  by_cases h : a.width = 0 ∨ b.width = 0
  · rw [if_pos h]
    simp only [NgGEMM_generic]
    rcases h with hw | hb
    · have hadd : ADD = true := by
        rcases hpre with hpos | hadd
        · omega
        · exact hadd
      subst hadd
      rw [hw]
      by_cases hc : i < a.height ∧ j < b.width
      · rw [if_pos hc]
        cases POS <;> simp [gemmVal]
      · rw [if_neg hc]
    · rw [if_neg (by rintro ⟨hi, hj⟩; omega)]
  · rw [if_neg h]
    simp only [atb_slot, NgGEMM_generic, matMat_AtB_idx, slotLen_min]

/-- Transposing both operands and the result and swapping the operand order
turns the generic semantics on the transposed data into the generic semantics
on the original data, for compatible shapes (`(AB)ᵗ = BᵗAᵗ`). -/
theorem generic_swap_transpose_eq (ADD POS : Bool) (a b c : Mat)
    (hw : a.width = b.height) (i j : Nat) :
    ((NgGEMM_generic ADD POS b.transpose a.transpose c.transpose).transpose).data i j =
      (NgGEMM_generic ADD POS a b c).data i j := by
  simp only [NgGEMM_generic, Mat.transpose, hw]
  by_cases hc : i < a.height ∧ j < b.width
  · rw [if_pos ⟨hc.2, hc.1⟩, if_pos hc]
    congr 1
    exact Finset.sum_congr rfl (fun k _ => mul_comm _ _)
  · rw [if_neg (by tauto), if_neg hc]

/-- C5 counterexample: with a column-major left operand of width 0 (zero
contraction dimension) and nonempty output block, the `NgGEMM` route through
`MatMat_AtB<false,true>` hits that wrapper's early return
(`a.Height()==0` holds for the transposed operand) and leaves `C` at its
stored 7, while the generic semantics `C := A·B` overwrites the block with 0. -/
theorem nggemm_atb_zero_width_diverges :
    ¬ ((NgGEMM_CR false true (Mat.mk 2 0 (fun _ _ => 0)) (Mat.mk 0 2 (fun _ _ => 0))
        (Mat.mk 2 2 (fun _ _ => 7))).data 0 0 =
      (NgGEMM_generic false true (Mat.mk 2 0 (fun _ _ => 0)) (Mat.mk 0 2 (fun _ _ => 0))
        (Mat.mk 2 2 (fun _ _ => 7))).data 0 0) := by
  decide

/-- C5 amended: every `NgGEMM<ADD,POS>` specialization computes the generic
semantics (`C := ±A·B` or `C ∓= A·B`), with a column-major result handled by
transposing both operands and the result and swapping operand order (the
inner call resolving on the flipped operand orderings), and a column-major
operand routed to the transposed-family entry points — except the
`MatMat_AtB` route taken for a column-major left operand, whose early return
makes the overwrite policies (`ADD = false`) leave `C` unchanged instead of
writing `±0` when the contraction dimension is zero; that route matches the
generic semantics whenever the contraction dimension is positive or the
policy accumulates, and the column-major-result template inherits the same
exception through its inner call for the (ColMajor a, RowMajor b)
instantiation while matching the generic semantics unconditionally on shape
for the other three operand orderings. -/
theorem nggemm_routes_match_generic (ADD POS : Bool) (a b c : Mat) :
    (∀ i j, (NgGEMM_RR ADD POS a b c).data i j = (NgGEMM_generic ADD POS a b c).data i j) ∧
    (∀ i j, (NgGEMM_RC ADD POS a b c).data i j = (NgGEMM_generic ADD POS a b c).data i j) ∧
    ((0 < a.width ∨ ADD = true) → ∀ i j,
      (NgGEMM_CR ADD POS a b c).data i j = (NgGEMM_generic ADD POS a b c).data i j) ∧
    (a.width = b.height → ∀ i j,
      (NgGEMM_CMres ADD POS MatOrder.rowMajor MatOrder.rowMajor a b c).data i j =
        (NgGEMM_generic ADD POS a b c).data i j ∧
      (NgGEMM_CMres ADD POS MatOrder.rowMajor MatOrder.colMajor a b c).data i j =
        (NgGEMM_generic ADD POS a b c).data i j ∧
      (NgGEMM_CMres ADD POS MatOrder.colMajor MatOrder.colMajor a b c).data i j =
        (NgGEMM_generic ADD POS a b c).data i j) ∧
    (a.width = b.height → (0 < a.width ∨ ADD = true) → ∀ i j,
      (NgGEMM_CMres ADD POS MatOrder.colMajor MatOrder.rowMajor a b c).data i j =
        (NgGEMM_generic ADD POS a b c).data i j) := by
  refine ⟨fun i j => nggemm_rr_eq_generic ADD POS a b c i j,
          fun i j => nggemm_rc_eq_generic ADD POS a b c i j,
          fun h i j => nggemm_cr_eq_generic ADD POS a b c h i j, ?_, ?_⟩
  · intro hw i j
    refine ⟨?_, ?_, ?_⟩
    · calc (NgGEMM_CMres ADD POS MatOrder.rowMajor MatOrder.rowMajor a b c).data i j
          = (NgGEMM_generic ADD POS b.transpose a.transpose c.transpose).data j i := rfl
        _ = (NgGEMM_generic ADD POS a b c).data i j :=
            generic_swap_transpose_eq ADD POS a b c hw i j
    · calc (NgGEMM_CMres ADD POS MatOrder.rowMajor MatOrder.colMajor a b c).data i j
          = (NgGEMM_RC ADD POS b.transpose a.transpose c.transpose).data j i := rfl
        _ = (NgGEMM_generic ADD POS b.transpose a.transpose c.transpose).data j i :=
            nggemm_rc_eq_generic ADD POS b.transpose a.transpose c.transpose j i
        _ = (NgGEMM_generic ADD POS a b c).data i j :=
            generic_swap_transpose_eq ADD POS a b c hw i j
    · calc (NgGEMM_CMres ADD POS MatOrder.colMajor MatOrder.colMajor a b c).data i j
          = (NgGEMM_RR ADD POS b.transpose a.transpose c.transpose).data j i := rfl
        _ = (NgGEMM_generic ADD POS b.transpose a.transpose c.transpose).data j i :=
            nggemm_rr_eq_generic ADD POS b.transpose a.transpose c.transpose j i
        _ = (NgGEMM_generic ADD POS a b c).data i j :=
            generic_swap_transpose_eq ADD POS a b c hw i j
  · intro hw hpre i j
    have hpre2 : 0 < (b.transpose).width ∨ ADD = true := by
      rcases hpre with h | h
      · left
        show 0 < b.height
        omega
      · exact Or.inr h
    calc (NgGEMM_CMres ADD POS MatOrder.colMajor MatOrder.rowMajor a b c).data i j
        = (NgGEMM_CR ADD POS b.transpose a.transpose c.transpose).data j i := rfl
      _ = (NgGEMM_generic ADD POS b.transpose a.transpose c.transpose).data j i :=
          nggemm_cr_eq_generic ADD POS b.transpose a.transpose c.transpose hpre2 j i
      _ = (NgGEMM_generic ADD POS a b c).data i j :=
          generic_swap_transpose_eq ADD POS a b c hw i j

/-- Witness for C5 amended at concrete 1×1 matrices: the column-major-left
route and two column-major-result instantiations (both-RowMajor operands and
the ColMajor-left one carrying the extra contraction hypothesis) all match
the generic semantics. -/
theorem nggemm_routes_match_generic_witness :
    (NgGEMM_CR true true (Mat.mk 1 1 (fun _ _ => 2)) (Mat.mk 1 1 (fun _ _ => 3))
      (Mat.mk 1 1 (fun _ _ => 4))).data 0 0 =
      (NgGEMM_generic true true (Mat.mk 1 1 (fun _ _ => 2)) (Mat.mk 1 1 (fun _ _ => 3))
        (Mat.mk 1 1 (fun _ _ => 4))).data 0 0 ∧
    (NgGEMM_CMres true true MatOrder.rowMajor MatOrder.rowMajor (Mat.mk 1 1 (fun _ _ => 2))
      (Mat.mk 1 1 (fun _ _ => 3)) (Mat.mk 1 1 (fun _ _ => 4))).data 0 0 =
      (NgGEMM_generic true true (Mat.mk 1 1 (fun _ _ => 2)) (Mat.mk 1 1 (fun _ _ => 3))
        (Mat.mk 1 1 (fun _ _ => 4))).data 0 0 ∧
    (NgGEMM_CMres true true MatOrder.colMajor MatOrder.rowMajor (Mat.mk 1 1 (fun _ _ => 2))
      (Mat.mk 1 1 (fun _ _ => 3)) (Mat.mk 1 1 (fun _ _ => 4))).data 0 0 =
      (NgGEMM_generic true true (Mat.mk 1 1 (fun _ _ => 2)) (Mat.mk 1 1 (fun _ _ => 3))
        (Mat.mk 1 1 (fun _ _ => 4))).data 0 0 :=
  ⟨(nggemm_routes_match_generic true true (Mat.mk 1 1 (fun _ _ => 2))
      (Mat.mk 1 1 (fun _ _ => 3)) (Mat.mk 1 1 (fun _ _ => 4))).2.2.1 (Or.inl (by decide)) 0 0,
   ((nggemm_routes_match_generic true true (Mat.mk 1 1 (fun _ _ => 2))
      (Mat.mk 1 1 (fun _ _ => 3)) (Mat.mk 1 1 (fun _ _ => 4))).2.2.2.1 rfl 0 0).1,
   (nggemm_routes_match_generic true true (Mat.mk 1 1 (fun _ _ => 2))
      (Mat.mk 1 1 (fun _ _ => 3)) (Mat.mk 1 1 (fun _ _ => 4))).2.2.2.2 rfl
      (Or.inl (by decide)) 0 0⟩

/-! ## C3: the Schur complement -/

/-- C3: `CalcSchurComplement` computes `S = A_kk - A_ke · A_ee⁻¹ · A_ek` over
the indices not marked in `used`; when no index is marked the eliminated
block is empty and `S` is an identity copy of all of `A`, and when every
index is marked the kept index set — hence `S` — has size zero. -/
theorem calcSchurComplement_formula_and_edges {n : Nat} (A : Matrix (Fin n) (Fin n) ℚ)
    (used : Fin n → Bool) :
    CalcSchurComplement A used =
      schurKK A used - schurKE A used * invQ (schurEE A used) * schurEK A used ∧
    ((∀ i, used i = false) → ∀ i j : {i : Fin n // used i = false},
      CalcSchurComplement A used i j = A i.val j.val) ∧
    ((∀ i, used i = true) → Fintype.card {i : Fin n // used i = false} = 0) := by
  refine ⟨rfl, ?_, ?_⟩
  · intro h i j
    haveI : IsEmpty {i : Fin n // used i = true} :=
      ⟨fun e => by simpa [h e.val] using e.prop⟩
    simp only [CalcSchurComplement, Matrix.sub_apply, Matrix.mul_apply]
    rw [Finset.univ_eq_empty, Finset.sum_empty, sub_zero]
    simp [schurKK]
  · intro h
    exact Fintype.card_eq_zero_iff.mpr
      ⟨fun e => absurd e.prop (by simp [h e.val])⟩

/-- Witness for C3 at a concrete 2×2 matrix with the all-false mask: the
Schur complement returns the corresponding entry of `A` unchanged. -/
theorem calcSchurComplement_edge_witness :
    CalcSchurComplement (n := 2) (fun i j => (i.val : ℚ) + 2 * j.val) (fun _ => false)
      ⟨0, rfl⟩ ⟨1, rfl⟩ = (fun i j : Fin 2 => (i.val : ℚ) + 2 * j.val) 0 1 :=
  (calcSchurComplement_formula_and_edges (n := 2)
    (fun i j => (i.val : ℚ) + 2 * j.val) (fun _ => false)).2.1
    (fun _ => rfl) ⟨0, rfl⟩ ⟨1, rfl⟩

end ngbla
